import Mathlib

/-!
Verification of the migration-chain specification for the repository
gitmeback/fastapi-sm-clone.

The repository consists of three Alembic migration scripts under
src/alembic/versions/.  Each script declares a revision identifier, a
down revision, and a pair of upgrade/downgrade edit sequences.  Those
three scripts are embedded below verbatim as `step134d`, `step2b86` and
`step5b5d`.

The spec re-architects the surrounding machinery as an explicit
MigrationChain engine (register / resolvePath / apply / revert /
migrate) together with a schema-edit executor.  That engine is not part
of the repository's source; it is modelled here from the spec's own
description, and every definition that comes from the spec rather than
from the source says so in its doc comment.
-/

namespace MigChain

/-- A column of a table: name, type, nullability and optional server
default, mirroring the arguments of `sa.Column` in the source scripts. -/
structure Column where
  name : String
  ctype : String
  nullable : Bool
  dflt : Option String
deriving DecidableEq, Repr

/-- A foreign-key constraint, mirroring the arguments of
`op.create_foreign_key` in the source scripts: constraint name, source
table, local column, referenced table, referenced column, on-delete
action. -/
structure ForeignKey where
  name : String
  table : String
  column : String
  refTable : String
  refColumn : String
  onDelete : Option String
deriving DecidableEq, Repr

/-- The tagged variant of schema edits produced by the source scripts:
`op.add_column`, `op.drop_column`, `op.create_foreign_key`,
`op.drop_constraint`. -/
inductive SchemaEdit where
  | addColumn (table column ctype : String) (nullable : Bool) (dflt : Option String)
  | dropColumn (table column : String)
  | addForeignKey (name table column refTable refColumn : String) (onDelete : Option String)
  | dropForeignKey (name table : String)
deriving DecidableEq, Repr

/-- The table an edit targets (for a foreign key, the table the
constraint is created on or dropped from). -/
def editTable : SchemaEdit → String
  | .addColumn t _ _ _ _ => t
  | .dropColumn t _ => t
  | .addForeignKey _ t _ _ _ _ => t
  | .dropForeignKey _ t => t

/-- Modelled from the spec: the live database schema the schema-edit
executor operates on (the spec keeps the executor external; a schema is
the minimal state its DDL touches): tables with their ordered column
lists, plus the set of foreign-key constraints. -/
structure Schema where
  tables : List (String × List Column)
  fks : List ForeignKey
deriving DecidableEq, Repr

/-- Column list of a table, if the table exists (first match). -/
def colsOf (tbls : List (String × List Column)) (t : String) : Option (List Column) :=
  (tbls.find? (fun p => p.1 == t)).map (fun p => p.2)

/-- Replace the column list of the first table named `t`, if present. -/
def setCols : List (String × List Column) → String → List Column → List (String × List Column)
  | [], _, _ => []
  | p :: rest, t, cols => if p.1 == t then (t, cols) :: rest else p :: setCols rest t cols

/-- Column list of a table in a schema. -/
def Schema.columnsOf (s : Schema) (t : String) : Option (List Column) :=
  colsOf s.tables t

/-- Whether table `t` has a column named `c`. -/
def Schema.hasColumn (s : Schema) (t c : String) : Bool :=
  match s.columnsOf t with
  | none => false
  | some cols => cols.any (fun col => col.name == c)

/-- The foreign keys declared on table `t`. -/
def Schema.fksOn (s : Schema) (t : String) : List ForeignKey :=
  s.fks.filter (fun f => f.table == t)

/-- Modelled from the spec: structured failures reported by the
schema-edit executor (the executor itself is an external collaborator
in the spec; these are the standard DDL failure conditions). -/
inductive EditError where
  | missingTable (t : String)
  | duplicateColumn (t c : String)
  | missingColumn (t c : String)
  | duplicateConstraint (n : String)
  | missingConstraint (n t : String)
deriving DecidableEq, Repr

/-- Modelled from the spec: the schema-edit executor, which issues one
SchemaEdit against the schema and reports success or a structured
failure.  Adding a column fails on a missing table or duplicate column;
dropping a column fails if absent; creating a foreign key fails if the
local column is missing, the referenced column is missing, or the
constraint name already exists; dropping a constraint fails if no
constraint of that name exists on the table. -/
def applyEdit (s : Schema) (e : SchemaEdit) : Except EditError Schema :=
  match e with
  | .addColumn t c ty nl df =>
    match colsOf s.tables t with
    | none => .error (.missingTable t)
    | some cols =>
      if cols.any (fun col => col.name == c) then .error (.duplicateColumn t c)
      else .ok { s with tables := setCols s.tables t (cols ++ [⟨c, ty, nl, df⟩]) }
  | .dropColumn t c =>
    match colsOf s.tables t with
    | none => .error (.missingTable t)
    | some cols =>
      if cols.any (fun col => col.name == c) then
        .ok { s with tables := setCols s.tables t (cols.filter (fun col => !(col.name == c))) }
      else .error (.missingColumn t c)
  | .addForeignKey n t c rt rc od =>
    if !(s.hasColumn t c) then .error (.missingColumn t c)
    else if !(s.hasColumn rt rc) then .error (.missingColumn rt rc)
    else if s.fks.any (fun f => f.name == n) then .error (.duplicateConstraint n)
    else .ok { s with fks := s.fks ++ [⟨n, t, c, rt, rc, od⟩] }
  | .dropForeignKey n t =>
    if s.fks.any (fun f => f.name == n && f.table == t) then
      .ok { s with fks := s.fks.filter (fun f => !(f.name == n && f.table == t)) }
    else .error (.missingConstraint n t)

/-- A migration step: revision id, optional down revision, and the
upgrade/downgrade edit sequences, as declared by one source script. -/
structure MigrationStep where
  revision : String
  downRevision : Option String
  upgrade : List SchemaEdit
  downgrade : List SchemaEdit
deriving DecidableEq, Repr

/-- Source file 134d9a43f339_add_content_column_to_posts_table.py:
revision 134d9a43f339, down_revision fa8d6eac1730; upgrade adds the
non-nullable `content` column (no server default) to `posts`; downgrade
drops it. -/
def step134d : MigrationStep :=
  { revision := "134d9a43f339"
    downRevision := some "fa8d6eac1730"
    upgrade := [.addColumn "posts" "content" "String" false none]
    downgrade := [.dropColumn "posts" "content"] }

/-- Source file 2b864134392f_add_foreign_key_to_posts_table.py:
revision 2b864134392f, down_revision edafe56964a0; upgrade adds the
non-nullable `owner_id` column and then creates foreign key
`post_user_fk` from posts.owner_id to users.id with ON DELETE CASCADE;
downgrade drops constraint `post_users_fk` and then drops `owner_id`. -/
def step2b86 : MigrationStep :=
  { revision := "2b864134392f"
    downRevision := some "edafe56964a0"
    upgrade := [.addColumn "posts" "owner_id" "Integer" false none,
                .addForeignKey "post_user_fk" "posts" "owner_id" "users" "id" (some "CASCADE")]
    downgrade := [.dropForeignKey "post_users_fk" "posts",
                  .dropColumn "posts" "owner_id"] }

/-- Source file 5b5d2975fa05_add_last_few_columns_to_posts_table.py:
revision 5b5d2975fa05, down_revision 2b864134392f; upgrade adds the
`published` column (server default TRUE) and then `created_at` (server
default NOW()); downgrade drops `published` and then `created_at`. -/
def step5b5d : MigrationStep :=
  { revision := "5b5d2975fa05"
    downRevision := some "2b864134392f"
    upgrade := [.addColumn "posts" "published" "Boolean" false (some "TRUE"),
                .addColumn "posts" "created_at" "TIMESTAMP(timezone=True)" false (some "NOW()")]
    downgrade := [.dropColumn "posts" "published",
                  .dropColumn "posts" "created_at"] }

/-- The three migration steps present in the repository. -/
def sourceSteps : List MigrationStep := [step134d, step2b86, step5b5d]

/-- The (table, column) pairs added by the AddColumn edits of a
sequence, in declaration order. -/
def addedColumns : List SchemaEdit → List (String × String)
  | [] => []
  | .addColumn t c _ _ _ :: es => (t, c) :: addedColumns es
  | _ :: es => addedColumns es

/-- The (table, column) pairs dropped by the DropColumn edits of a
sequence, in declaration order. -/
def droppedColumns : List SchemaEdit → List (String × String)
  | [] => []
  | .dropColumn t c :: es => (t, c) :: droppedColumns es
  | _ :: es => droppedColumns es

/-- Modelled from the spec: the error taxonomy of the MigrationChain
engine (section 7): DuplicateRevision, DanglingReference, NoPath,
ApplyFailed, RevertFailed, each carrying the offending revision and,
where applicable, the underlying edit-executor failure. -/
inductive ChainError where
  | duplicateRevision (r : String)
  | danglingReference (r : String)
  | noPath (a b : Option String)
  | applyFailed (r : String) (e : EditError)
  | revertFailed (r : String) (e : EditError)
deriving DecidableEq, Repr

/-- The set of registered migration steps. -/
abbrev Registry := List MigrationStep

/-- Look up a registered step by revision id. -/
def findStep (reg : Registry) (r : String) : Option MigrationStep :=
  reg.find? (fun s => s.revision == r)

/-- Modelled from the spec: `register(step)` of the MigrationChain
engine, which is not part of the repository's source.  It inserts a
step, failing with DuplicateRevision if the revision id already exists
and with DanglingReference if the down revision is neither null nor a
registered revision. -/
def register (reg : Registry) (s : MigrationStep) : Except ChainError Registry :=
  if (findStep reg s.revision).isSome then .error (.duplicateRevision s.revision)
  else
    match s.downRevision with
    | none => .ok (s :: reg)
    | some d => if (findStep reg d).isSome then .ok (s :: reg) else .error (.danglingReference d)

/-- Register a list of steps in order, stopping at the first failure
(the spec makes registration errors fatal at startup). -/
def registerAll (reg : Registry) : List MigrationStep → Except ChainError Registry
  | [] => .ok reg
  | s :: rest =>
    match register reg s with
    | .ok reg2 => registerAll reg2 rest
    | .error e => .error e

/-- Walk the predecessor (downRevision) relation starting from an
optional revision, collecting the steps met, most recent first.  The
walk stops at a null down revision, at an unregistered revision, or
when the fuel runs out. -/
def chainDown (reg : Registry) : Nat → Option String → List MigrationStep
  | 0, _ => []
  | _, none => []
  | fuel + 1, some r =>
    match findStep reg r with
    | none => []
    | some s => s :: chainDown reg fuel s.downRevision

/-- The descending predecessor chain of an optional revision, with
enough fuel to traverse the whole registry. -/
def ancestry (reg : Registry) (r : Option String) : List MigrationStep :=
  chainDown reg (reg.length + 1) r

/-- Whether a descending chain ends at a true root (or is empty). -/
def rootedB (c : List MigrationStep) : Bool :=
  match c.getLast? with
  | none => true
  | some s => s.downRevision == none

/-- Whether the endpoint `stop` lies below a descending chain `c`:
for a concrete revision, membership in the chain; for the null base,
that the chain is rooted. -/
def belowOf (c : List MigrationStep) : Option String → Bool
  | some r => c.any (fun s => s.revision == r)
  | none => rootedB c

/-- The steps of a descending chain strictly above the endpoint
`stop` (all of them when `stop` is the null base). -/
def stepsAbove (c : List MigrationStep) (stop : Option String) : List MigrationStep :=
  c.takeWhile (fun s => !(some s.revision == stop))

/-- Whether a revision endpoint is valid: null, or registered. -/
def okEndpoint (reg : Registry) : Option String → Bool
  | none => true
  | some r => (findStep reg r).isSome

/-- Whether walking the predecessor relation down from `a` reaches
`b` (reflexively). -/
def reaches (reg : Registry) (a b : String) : Bool :=
  belowOf (ancestry reg (some a)) (some b)

/-- An ordered path between two revisions: the steps to apply in
ascending order, or the steps to revert in descending order. -/
inductive Path where
  | upgradePath (steps : List MigrationStep)
  | downgradePath (steps : List MigrationStep)
deriving DecidableEq, Repr

/-- Modelled from the spec: `resolvePath(fromRevision, toRevision)` of
the MigrationChain engine, which is not part of the repository's
source.  It walks the linked predecessor relation: if the target is a
descendant of the start, the steps strictly above the start are
returned in ascending (upgrade) order; if an ancestor, the steps
strictly above the target are returned in descending (downgrade)
order; otherwise it fails with NoPath. -/
def resolvePath (reg : Registry) (f t : Option String) : Except ChainError Path :=
  if okEndpoint reg f && okEndpoint reg t then
    let ct := ancestry reg t
    if belowOf ct f then .ok (.upgradePath (stepsAbove ct f).reverse)
    else
      let cf := ancestry reg f
      if belowOf cf t then .ok (.downgradePath (stepsAbove cf t))
      else .error (.noPath f t)
  else .error (.noPath f t)

/-- Run a sequence of edits against a schema, stopping at the first
failure; the returned schema keeps the effects of the edits that
succeeded before the failure. -/
def runEdits (sc : Schema) : List SchemaEdit → Schema × Option EditError
  | [] => (sc, none)
  | e :: es =>
    match applyEdit sc e with
    | .ok sc2 => runEdits sc2 es
    | .error err => (sc, some err)

/-- Modelled from the spec: the engine state a migrate run threads: the
live schema plus ChainState, the currently-applied revision. -/
structure EngineState where
  schema : Schema
  current : Option String
deriving DecidableEq, Repr

/-- Modelled from the spec: `apply(step)`, which is not part of the
repository's source.  It executes the step's upgrade edits in
sequence; on failure the remaining edits of the step are aborted, the
partial schema is kept, ChainState is unchanged and ApplyFailed is
reported; on success ChainState becomes the step's revision. -/
def applyStep (st : EngineState) (s : MigrationStep) : EngineState × Option ChainError :=
  match runEdits st.schema s.upgrade with
  | (sc, none) => ({ schema := sc, current := some s.revision }, none)
  | (sc, some err) => ({ st with schema := sc }, some (.applyFailed s.revision err))

/-- Modelled from the spec: `revert(step)`, which is not part of the
repository's source.  It executes the step's downgrade edits in their
declaration order with the same failure semantics as apply, producing
RevertFailed; on success ChainState becomes the step's down
revision. -/
def revertStep (st : EngineState) (s : MigrationStep) : EngineState × Option ChainError :=
  match runEdits st.schema s.downgrade with
  | (sc, none) => ({ schema := sc, current := s.downRevision }, none)
  | (sc, some err) => ({ st with schema := sc }, some (.revertFailed s.revision err))

/-- Run a resolved list of steps, applying (`fwd = true`) or reverting
each in order and stopping at the first failure. -/
def runSteps (fwd : Bool) (st : EngineState) : List MigrationStep → EngineState × Option ChainError
  | [] => (st, none)
  | s :: rest =>
    match (if fwd then applyStep st s else revertStep st s) with
    | (st2, none) => runSteps fwd st2 rest
    | (st2, some e) => (st2, some e)

/-- Modelled from the spec: `migrate(fromRevision, toRevision)`, which
is not part of the repository's source.  It resolves the path from the
current revision to the target and applies or reverts each step in
order, stopping at the first failure and leaving ChainState at the
last successfully completed step. -/
def migrate (reg : Registry) (st : EngineState) (t : Option String) : EngineState × Option ChainError :=
  match resolvePath reg st.current t with
  | .error e => (st, some e)
  | .ok (.upgradePath l) => runSteps true st l
  | .ok (.downgradePath l) => runSteps false st l

/-- Modelled from the spec: the construction-time AddColumn validation
(edge-case policy of section 4.1): a nullable=false column requires a
default value; every other edit is structurally valid. -/
def validEdit : SchemaEdit → Bool
  | .addColumn _ _ _ nl df => nl || df.isSome
  | _ => true

/-- Modelled from the spec: MigrationStep construction, which is not
part of the repository's source.  A step whose edits fail the
AddColumn validation is rejected at construction time, before it can
be registered; the offending edit is reported. -/
def mkStep (r : String) (d : Option String) (up dn : List SchemaEdit) : Except SchemaEdit MigrationStep :=
  match (up ++ dn).find? (fun e => !(validEdit e)) with
  | some e => .error e
  | none => .ok ⟨r, d, up, dn⟩

/-- Construct a step from the fields of an existing step value. -/
def mkStepOf (s : MigrationStep) : Except SchemaEdit MigrationStep :=
  mkStep s.revision s.downRevision s.upgrade s.downgrade

/-- Whether each step's down revision points at a step that occurs
later in the registry list, i.e. was registered strictly earlier
(register prepends); this rules out cycles in the predecessor
relation. -/
def fwdClosed : Registry → Bool
  | [] => true
  | s :: rest =>
    (match s.downRevision with
     | none => true
     | some d => rest.any (fun x => x.revision == d)) && fwdClosed rest

/-- Whether the registry forms a single linked list: exactly one root
step with a null down revision, and every step's predecessor walk
reaches that root. -/
def singleChainB (reg : Registry) : Bool :=
  ((reg.filter (fun s => s.downRevision == none)).length == 1) &&
  reg.all (fun s => rootedB (ancestry reg (some s.revision)))

/-- Modelled from the spec: root step R1 of the scenario in section 8
(the spec leaves R1's edits unnamed; it is given one column add so
that "only R1's effects" is observable). -/
def stepR1 : MigrationStep :=
  { revision := "R1"
    downRevision := none
    upgrade := [.addColumn "posts" "title" "String" true none]
    downgrade := [.dropColumn "posts" "title"] }

/-- Modelled from the spec: scenario step R2, adding column `content`
with the edits of source step 134d9a43f339 and down revision R1. -/
def stepR2 : MigrationStep :=
  { revision := "R2"
    downRevision := some "R1"
    upgrade := [.addColumn "posts" "content" "String" false none]
    downgrade := [.dropColumn "posts" "content"] }

/-- Modelled from the spec: scenario step R3, adding `owner_id` plus
the foreign key with the upgrade edits of source step 2b864134392f,
down revision R2, and — per the spec's data model, which makes the
downgrade the exact inverse sequence — a downgrade dropping the very
constraint name the upgrade creates. -/
def stepR3 : MigrationStep :=
  { revision := "R3"
    downRevision := some "R2"
    upgrade := [.addColumn "posts" "owner_id" "Integer" false none,
                .addForeignKey "post_user_fk" "posts" "owner_id" "users" "id" (some "CASCADE")]
    downgrade := [.dropForeignKey "post_user_fk" "posts",
                  .dropColumn "posts" "owner_id"] }

/-- The registry obtained by registering R1, R2, R3 in order. -/
def scenarioReg : Registry := [stepR3, stepR2, stepR1]

/-- A small pre-existing schema: a posts table and a users table, each
with an id column, and no constraints. -/
def baseSchema : Schema :=
  { tables := [("posts", [⟨"id", "Integer", false, none⟩]),
               ("users", [⟨"id", "Integer", false, none⟩])]
    fks := [] }

/-- The base schema without the users table, so that creating a
foreign key referencing users.id fails. -/
def noUsersSchema : Schema :=
  { tables := [("posts", [⟨"id", "Integer", false, none⟩])]
    fks := [] }

/-- The id column shared by the concrete schemas below. -/
def colId : Column := ⟨"id", "Integer", false, none⟩

/-- The title column added by scenario step R1. -/
def colTitle : Column := ⟨"title", "String", true, none⟩

/-- The content column added by step 134d9a43f339 (and scenario R2). -/
def colContent : Column := ⟨"content", "String", false, none⟩

/-- The owner_id column added by step 2b864134392f (and scenario R3). -/
def colOwner : Column := ⟨"owner_id", "Integer", false, none⟩

/-- The published column added by step 5b5d2975fa05. -/
def colPub : Column := ⟨"published", "Boolean", false, some "TRUE"⟩

/-- The created_at column added by step 5b5d2975fa05. -/
def colCre : Column := ⟨"created_at", "TIMESTAMP(timezone=True)", false, some "NOW()"⟩

/-- The foreign key created by the upgrade of step 2b864134392f. -/
def fkPostUser : ForeignKey :=
  ⟨"post_user_fk", "posts", "owner_id", "users", "id", some "CASCADE"⟩

/-- The schema holding exactly R1's effects over the base schema. -/
def schemaAtR1 : Schema :=
  { tables := [("posts", [colId, colTitle]),
               ("users", [colId])]
    fks := [] }

/-- The schema after migrating the base schema up to scenario R3. -/
def schemaAtR3 : Schema :=
  { tables := [("posts", [colId, colTitle, colContent, colOwner]),
               ("users", [colId])]
    fks := [fkPostUser] }

/-- The constraint names created by the AddForeignKey edits of a
sequence, in declaration order. -/
def createdFkNames : List SchemaEdit → List String
  | [] => []
  | .addForeignKey n _ _ _ _ _ :: es => n :: createdFkNames es
  | _ :: es => createdFkNames es

/-- The constraint names dropped by the DropForeignKey edits of a
sequence, in declaration order. -/
def droppedFkNames : List SchemaEdit → List String
  | [] => []
  | .dropForeignKey n _ :: es => n :: droppedFkNames es
  | _ :: es => droppedFkNames es

/-! Helper lemmas about the schema representation. -/

theorem colsOf_setCols (tbls : List (String × List Column)) (t : String)
    (cols cs : List Column) (h : colsOf tbls t = some cs) :
    colsOf (setCols tbls t cols) t = some cols := by
  induction tbls with
  | nil => simp [colsOf] at h
  | cons p rest ih =>
    obtain ⟨a, b⟩ := p
    by_cases hp : a = t
    · subst hp
      simp [colsOf, setCols]
    · have hp' : (a == t) = false := beq_eq_false_iff_ne.mpr hp
      simp only [colsOf, setCols, hp', if_false] at h ⊢
      simp only [List.find?, hp'] at h ⊢
      exact ih h

theorem colsOf_setCols_ne (tbls : List (String × List Column)) (t u : String)
    (cols : List Column) (h : u ≠ t) :
    colsOf (setCols tbls t cols) u = colsOf tbls u := by
  induction tbls with
  | nil => simp [setCols]
  | cons p rest ih =>
    obtain ⟨a, b⟩ := p
    by_cases hp : a = t
    · subst hp
      have ht : (a == u) = false := beq_eq_false_iff_ne.mpr (Ne.symm h)
      simp [colsOf, setCols, List.find?, ht]
    · have hp' : (a == t) = false := beq_eq_false_iff_ne.mpr hp
      simp only [setCols, hp', if_false]
      by_cases hu : a = u
      · subst hu
        simp [colsOf, List.find?]
      · have hu' : (a == u) = false := beq_eq_false_iff_ne.mpr hu
        simp only [colsOf, List.find?, hu'] at ih ⊢
        exact ih

theorem setCols_setCols (tbls : List (String × List Column)) (t : String)
    (cols1 cols2 : List Column) :
    setCols (setCols tbls t cols1) t cols2 = setCols tbls t cols2 := by
  induction tbls with
  | nil => simp [setCols]
  | cons p rest ih =>
    obtain ⟨a, b⟩ := p
    by_cases hp : a = t
    · subst hp
      simp [setCols]
    · have hp' : (a == t) = false := beq_eq_false_iff_ne.mpr hp
      simp [setCols, hp', ih]

theorem setCols_self (tbls : List (String × List Column)) (t : String)
    (cs : List Column) (h : colsOf tbls t = some cs) :
    setCols tbls t cs = tbls := by
  induction tbls with
  | nil => simp [colsOf] at h
  | cons p rest ih =>
    obtain ⟨a, b⟩ := p
    by_cases hp : a = t
    · subst hp
      simp [colsOf, List.find?] at h
      simp [setCols, h]
    · have hp' : (a == t) = false := beq_eq_false_iff_ne.mpr hp
      simp only [colsOf, List.find?, hp'] at h
      simp [setCols, hp', ih h]

/-! Characterizations of the schema-edit executor. -/

theorem applyEdit_add_ok {sc sc' : Schema} {t c ty : String} {nl : Bool} {df : Option String} :
    applyEdit sc (.addColumn t c ty nl df) = .ok sc' ↔
    ∃ cols, colsOf sc.tables t = some cols
      ∧ cols.any (fun col => col.name == c) = false
      ∧ sc' = { sc with tables := setCols sc.tables t (cols ++ [⟨c, ty, nl, df⟩]) } := by
  constructor
  · intro h
    simp only [applyEdit] at h
    split at h
    · exact absurd h (by simp)
    · rename_i cols hc
      split at h
      · exact absurd h (by simp)
      · rename_i hany
        refine ⟨cols, hc, by simpa using hany, ?_⟩
        cases h
        rfl
  · rintro ⟨cols, hc, hany, rfl⟩
    simp only [applyEdit]
    rw [hc]
    simp [hany]

theorem applyEdit_drop_ok (sc : Schema) (t c : String) (cols : List Column)
    (hc : colsOf sc.tables t = some cols)
    (hin : cols.any (fun col => col.name == c) = true) :
    applyEdit sc (.dropColumn t c) =
      .ok { sc with tables := setCols sc.tables t (cols.filter (fun col => !(col.name == c))) } := by
  simp only [applyEdit]
  rw [hc]
  simp [hin]

theorem filter_fresh_append (cols : List Column) (c : String) (col : Column)
    (hname : col.name = c)
    (hany : cols.any (fun x => x.name == c) = false) :
    (cols ++ [col]).filter (fun x => !(x.name == c)) = cols := by
  rw [List.filter_append]
  have h1 : cols.filter (fun x => !(x.name == c)) = cols := by
    refine List.filter_eq_self.mpr ?_
    intro x hx
    have hx' := List.any_eq_false.mp hany x hx
    have hx2 : (x.name == c) = false := by simpa using hx'
    simp [hx2]
  have h2 : [col].filter (fun x => !(x.name == c)) = [] := by
    simp [List.filter, hname]
  rw [h1, h2, List.append_nil]

theorem nomatch_fresh_append (cols : List Column) (c c' : String) (col : Column)
    (hname : col.name = c') (hne : (c' == c) = false)
    (hany : cols.any (fun x => x.name == c) = false) :
    (cols ++ [col]).any (fun x => x.name == c) = false := by
  rw [List.any_append, hany]
  simp [List.any, hname, hne]

theorem match_append (cols : List Column) (c : String) (col : Column)
    (hname : col.name = c) :
    (cols ++ [col]).any (fun x => x.name == c) = true := by
  rw [List.any_append]
  simp [List.any, hname]

theorem applyEdit_frame (sc sc2 : Schema) (e : SchemaEdit) (h : applyEdit sc e = .ok sc2)
    (t : String) (ht : t ≠ editTable e) :
    sc2.columnsOf t = sc.columnsOf t ∧ sc2.fksOn t = sc.fksOn t := by
  cases e with
  | addColumn t' c ty nl df =>
    rw [applyEdit_add_ok] at h
    obtain ⟨cols, hc, hany, rfl⟩ := h
    refine ⟨?_, rfl⟩
    simp only [Schema.columnsOf]
    exact colsOf_setCols_ne sc.tables t' t _ (by simpa [editTable] using ht)
  | dropColumn t' c =>
    simp only [applyEdit] at h
    split at h
    · exact absurd h (by simp)
    · rename_i cols hc
      split at h
      · cases h
        refine ⟨?_, rfl⟩
        simp only [Schema.columnsOf]
        exact colsOf_setCols_ne sc.tables t' t _ (by simpa [editTable] using ht)
      · exact absurd h (by simp)
  | addForeignKey n t' c rt rc od =>
    simp only [applyEdit] at h
    split at h
    · exact absurd h (by simp)
    · split at h
      · exact absurd h (by simp)
      · split at h
        · exact absurd h (by simp)
        · cases h
          refine ⟨rfl, ?_⟩
          simp only [Schema.fksOn]
          rw [List.filter_append]
          have hone : List.filter (fun (f : ForeignKey) => f.table == t) [⟨n, t', c, rt, rc, od⟩] = [] := by
            simp only [editTable] at ht
            simp [List.filter, beq_eq_false_iff_ne.mpr (Ne.symm ht)]
          rw [hone, List.append_nil]
  | dropForeignKey n t' =>
    simp only [applyEdit] at h
    split at h
    · cases h
      refine ⟨rfl, ?_⟩
      simp only [Schema.fksOn]
      rw [List.filter_filter]
      refine List.filter_congr ?_
      intro f _
      simp only [editTable] at ht
      cases hq : (f.table == t) with
      | false => rfl
      | true =>
        have hft : f.table = t := by simpa using hq
        have : (f.table == t') = false := by
          rw [hft]
          exact beq_eq_false_iff_ne.mpr ht
        simp [this]
    · exact absurd h (by simp)

theorem runEdits_frame (tb : String) (es : List SchemaEdit)
    (hall : ∀ e ∈ es, editTable e = tb)
    (sc sc' : Schema) (r : Option EditError) (h : runEdits sc es = (sc', r))
    (t : String) (ht : t ≠ tb) :
    sc'.columnsOf t = sc.columnsOf t ∧ sc'.fksOn t = sc.fksOn t := by
  induction es generalizing sc with
  | nil =>
    simp only [runEdits] at h
    cases h
    exact ⟨rfl, rfl⟩
  | cons e es ih =>
    simp only [runEdits] at h
    split at h
    · rename_i sc2 happ
      have hte : t ≠ editTable e := by
        rw [hall e (List.mem_cons_self e es)]
        exact ht
      have h1 := applyEdit_frame sc sc2 e happ t hte
      have h2 := ih (fun x hx => hall x (List.mem_cons_of_mem e hx)) sc2 h
      exact ⟨h2.1.trans h1.1, h2.2.trans h1.2⟩
    · rename_i err happ
      cases h
      exact ⟨rfl, rfl⟩

theorem runSteps_append (fwd : Bool) (st st1 : EngineState)
    (l1 l2 : List MigrationStep) (h : runSteps fwd st l1 = (st1, none)) :
    runSteps fwd st (l1 ++ l2) = runSteps fwd st1 l2 := by
  induction l1 generalizing st with
  | nil =>
    simp only [runSteps] at h
    cases h
    rw [List.nil_append]
  | cons s l1 ih =>
    simp only [List.cons_append, runSteps] at h ⊢
    split at h
    · rename_i st2 heq
      exact ih st2 h
    · rename_i st2 e heq
      exact absurd h (by simp)

theorem register_ok_cases (reg reg' : Registry) (s : MigrationStep)
    (h : register reg s = .ok reg') :
    reg' = s :: reg ∧ findStep reg s.revision = none
    ∧ (s.downRevision = none ∨ ∃ d, s.downRevision = some d ∧ (findStep reg d).isSome = true) := by
  simp only [register] at h
  split at h
  · exact absurd h (by simp)
  · rename_i hdup
    have hdup' : findStep reg s.revision = none := by
      simpa [Option.not_isSome_iff_eq_none] using hdup
    split at h
    · rename_i hdown
      cases h
      exact ⟨rfl, hdup', Or.inl hdown⟩
    · rename_i d hdown
      split at h
      · rename_i hsome
        cases h
        exact ⟨rfl, hdup', Or.inr ⟨d, hdown, hsome⟩⟩
      · exact absurd h (by simp)

theorem register_preserves_inv (reg reg' : Registry) (s : MigrationStep)
    (hn : (reg.map (fun x => x.revision)).Nodup) (hf : fwdClosed reg = true)
    (h : register reg s = .ok reg') :
    (reg'.map (fun x => x.revision)).Nodup ∧ fwdClosed reg' = true := by
  obtain ⟨he, hdup, hdown⟩ := register_ok_cases reg reg' s h
  subst he
  constructor
  · simp only [List.map_cons, List.nodup_cons]
    refine ⟨?_, hn⟩
    intro hmem
    obtain ⟨x, hx, hxe⟩ := List.mem_map.mp hmem
    have hnone := List.find?_eq_none.mp hdup x hx
    exact hnone (by simp [hxe])
  · simp only [fwdClosed, Bool.and_eq_true]
    refine ⟨?_, hf⟩
    rcases hdown with hnone | ⟨d, hd, hsome⟩
    · simp [hnone]
    · rw [hd]
      obtain ⟨x, hx, hpx⟩ := List.find?_isSome.mp hsome
      exact List.any_eq_true.mpr ⟨x, hx, hpx⟩

theorem registerAll_inv (l : List MigrationStep) (reg0 reg : Registry)
    (h0 : (reg0.map (fun x => x.revision)).Nodup ∧ fwdClosed reg0 = true)
    (h : registerAll reg0 l = .ok reg) :
    (reg.map (fun x => x.revision)).Nodup ∧ fwdClosed reg = true := by
  induction l generalizing reg0 with
  | nil =>
    simp only [registerAll] at h
    cases h
    exact h0
  | cons s l ih =>
    simp only [registerAll] at h
    split at h
    · rename_i reg2 hreg2
      exact ih reg2 (register_preserves_inv reg0 reg2 s h0.1 h0.2 hreg2) h
    · exact absurd h (by simp)

theorem runEdits_singleton (sc sc' : Schema) (e : SchemaEdit) :
    runEdits sc [e] = (sc', none) ↔ applyEdit sc e = .ok sc' := by
  simp only [runEdits]
  constructor
  · intro h
    split at h
    · rename_i s1 ha1
      injection h with h1 h2
      subst h1
      exact ha1
    · exact absurd h (by simp)
  · intro h
    rw [h]

theorem runEdits_pair (sc sc' : Schema) (e1 e2 : SchemaEdit) :
    runEdits sc [e1, e2] = (sc', none) ↔
    ∃ s1, applyEdit sc e1 = .ok s1 ∧ applyEdit s1 e2 = .ok sc' := by
  simp only [runEdits]
  constructor
  · intro h
    split at h
    · rename_i s1 ha1
      split at h
      · rename_i s2 ha2
        injection h with h1 h2
        subst h1
        exact ⟨s1, ha1, ha2⟩
      · exact absurd h (by simp)
    · exact absurd h (by simp)
  · rintro ⟨s1, ha1, ha2⟩
    simp [ha1, ha2]

theorem add_then_drop (tbls : List (String × List Column)) (fs : List ForeignKey)
    (sc' : Schema) (t c ty : String) (nl : Bool) (df : Option String)
    (h : applyEdit ⟨tbls, fs⟩ (.addColumn t c ty nl df) = .ok sc') :
    applyEdit sc' (.dropColumn t c) = .ok ⟨tbls, fs⟩ := by
  rw [applyEdit_add_ok] at h
  obtain ⟨cols, hc, hany, rfl⟩ := h
  have hc2 : colsOf (setCols tbls t (cols ++ [(⟨c, ty, nl, df⟩ : Column)])) t
      = some (cols ++ [(⟨c, ty, nl, df⟩ : Column)]) := colsOf_setCols tbls t _ cols hc
  have hin : (cols ++ [(⟨c, ty, nl, df⟩ : Column)]).any (fun col => col.name == c) = true :=
    match_append cols c _ rfl
  have hdrop := applyEdit_drop_ok
    (⟨setCols tbls t (cols ++ [(⟨c, ty, nl, df⟩ : Column)]), fs⟩ : Schema) t c _ hc2 hin
  rw [filter_fresh_append cols c _ rfl hany, setCols_setCols,
    setCols_self tbls t cols hc] at hdrop
  exact hdrop

/-! Claim theorems. -/

/-- C1: the claim that each registered step's downgrade drops, by name,
the same foreign key constraint its upgrade created — and hence that
apply followed by revert round-trips the schema — fails on source step
2b864134392f: its upgrade creates constraint post_user_fk while its
downgrade drops post_users_fk, so reverting the applied step fails with
an unknown-constraint error and the schema is not restored. -/
theorem fkDowngradeNameMismatch :
    createdFkNames step2b86.upgrade = ["post_user_fk"]
    ∧ droppedFkNames step2b86.downgrade = ["post_users_fk"]
    ∧ "post_user_fk" ≠ "post_users_fk"
    ∧ (applyStep ⟨baseSchema, some "edafe56964a0"⟩ step2b86).2 = none
    ∧ (revertStep (applyStep ⟨baseSchema, some "edafe56964a0"⟩ step2b86).1 step2b86).2
        = some (.revertFailed "2b864134392f" (.missingConstraint "post_users_fk" "posts"))
    ∧ (revertStep (applyStep ⟨baseSchema, some "edafe56964a0"⟩ step2b86).1 step2b86).1.schema
        ≠ baseSchema := by
  refine ⟨rfl, rfl, by decide, rfl, rfl, by decide⟩

/-- C2 counterexample: step 5b5d2975fa05 refutes "the last column added
by the step's upgrade is the first column dropped by its downgrade":
the upgrade adds published then created_at, and the downgrade drops
published first, not created_at. -/
theorem downgradeNotReversed :
    (addedColumns step5b5d.upgrade).getLast? = some ("posts", "created_at")
    ∧ (droppedColumns step5b5d.downgrade).head? = some ("posts", "published")
    ∧ (("posts", "created_at") : String × String) ≠ ("posts", "published") := by
  refine ⟨rfl, rfl, by decide⟩

/-- C2 (amended): the downgrade edit order mirrors the upgrade order in
reverse for steps 134d9a43f339 and 2b864134392f (for the latter, the
constraint drop comes before the column drop, mirroring the column add
before the constraint creation), but step 5b5d2975fa05's downgrade
drops its two columns in the same declaration order its upgrade added
them, not in reverse. -/
theorem downgradeOrderPerStep :
    droppedColumns step134d.downgrade = (addedColumns step134d.upgrade).reverse
    ∧ droppedColumns step2b86.downgrade = (addedColumns step2b86.upgrade).reverse
    ∧ step2b86.downgrade.head? = some (.dropForeignKey "post_users_fk" "posts")
    ∧ droppedColumns step5b5d.downgrade = addedColumns step5b5d.upgrade
    ∧ droppedColumns step5b5d.downgrade ≠ (addedColumns step5b5d.upgrade).reverse := by
  refine ⟨rfl, rfl, rfl, rfl, by decide⟩

/-- C3 counterexample: the repository's registered migration
134d9a43f339 has an upgrade containing an AddColumn edit with
nullable=false and no default (the content column), and the spec's
construction-time validation rejects exactly that step — so it is false
that no registered step's upgrade ever adds a non-nullable column
without a default. -/
theorem nonNullableNoDefaultRegistered :
    step134d ∈ sourceSteps
    ∧ SchemaEdit.addColumn "posts" "content" "String" false none ∈ step134d.upgrade
    ∧ validEdit (.addColumn "posts" "content" "String" false none) = false
    ∧ mkStepOf step134d = .error (.addColumn "posts" "content" "String" false none)
    ∧ mkStepOf step2b86 = .error (.addColumn "posts" "owner_id" "Integer" false none) := by
  refine ⟨by decide, by decide, rfl, rfl, rfl⟩

/-- C3 (amended): any step that passes the spec's construction-time
validation contains no upgrade edit adding a non-nullable column
without a default; the repository's steps 134d9a43f339 and 2b864134392f
contain such edits and are rejected by that validation, so the
invariant holds only of validated steps, not of the repository's
registered migrations. -/
theorem mkStepUpgradeValidated (r : String) (d : Option String)
    (up dn : List SchemaEdit) (st : MigrationStep)
    (h : mkStep r d up dn = .ok st) :
    ∀ e ∈ st.upgrade, validEdit e = true := by
  intro e he
  simp only [mkStep] at h
  split at h
  · exact absurd h (by simp)
  · rename_i hfind
    cases h
    have := List.find?_eq_none.mp hfind e (List.mem_append.mpr (Or.inl he))
    simpa using this

/-- Witness for the amended C3 theorem at a concrete validated step. -/
theorem mkStepUpgradeValidated_w :
    validEdit (.dropColumn "posts" "content") = true :=
  mkStepUpgradeValidated "134d9a43f339" (some "fa8d6eac1730")
    [.dropColumn "posts" "content"] [] ⟨"134d9a43f339", some "fa8d6eac1730", [.dropColumn "posts" "content"], []⟩
    rfl (.dropColumn "posts" "content") (by decide)

/-- C4 counterexample: in the source, the step adding owner_id and the
foreign key (2b864134392f) has down revision edafe56964a0, which is not
the revision of the content step (134d9a43f339); the content step's own
down revision is fa8d6eac1730, not null; and neither predecessor is
registered, so the three files do not form the claimed chain. -/
theorem ownerIdStepPredecessorNotContent :
    step2b86.downRevision = some "edafe56964a0"
    ∧ step2b86.downRevision ≠ some step134d.revision
    ∧ step134d.downRevision ≠ none
    ∧ findStep sourceSteps "edafe56964a0" = none
    ∧ findStep sourceSteps "fa8d6eac1730" = none := by
  refine ⟨rfl, by decide, by decide, rfl, rfl⟩

/-- C4 (amended): for the spec's hypothetical scenario chain — root R1,
R2 adding content with down revision R1, R3 adding owner_id plus the
foreign key with down revision R2 and an exactly inverse downgrade —
registering R1, R2, R3 succeeds, migrate from the null base to R3
resolves the ascending path R1, R2, R3 and applies all three, and
migrate from R3 down to R1 resolves the descending path R3, R2 and
reverts both, leaving exactly R1's effects over the base schema. -/
theorem scenarioMigrationOrder :
    registerAll [] [stepR1, stepR2, stepR3] = .ok scenarioReg
    ∧ resolvePath scenarioReg none (some "R3") = .ok (.upgradePath [stepR1, stepR2, stepR3])
    ∧ migrate scenarioReg ⟨baseSchema, none⟩ (some "R3") = (⟨schemaAtR3, some "R3"⟩, none)
    ∧ resolvePath scenarioReg (some "R3") (some "R1") = .ok (.downgradePath [stepR3, stepR2])
    ∧ migrate scenarioReg ⟨schemaAtR3, some "R3"⟩ (some "R1") = (⟨schemaAtR1, some "R1"⟩, none)
    ∧ runEdits baseSchema stepR1.upgrade = (schemaAtR1, none) := by
  refine ⟨rfl, rfl, rfl, rfl, rfl, rfl⟩

/-- C5 counterexample: the register operation described by the spec
accepts a second step with a null down revision, after which the
registry has two roots and is not a single linked list — so register's
checks alone do not maintain the claimed single-chain invariant. -/
theorem registerAllowsTwoRoots :
    registerAll [] [⟨"a", none, [], []⟩, ⟨"b", none, [], []⟩]
      = .ok [⟨"b", none, [], []⟩, ⟨"a", none, [], []⟩]
    ∧ singleChainB [⟨"b", none, [], []⟩, ⟨"a", none, [], []⟩] = false := by
  refine ⟨rfl, rfl⟩

/-- C5 (amended): after every successful sequence of register calls
from an empty registry, revision ids are pairwise distinct and every
non-null down revision refers to a strictly earlier registered step
(so the predecessor relation is acyclic and refers only to registered
revisions); a single root is, however, not enforced. -/
theorem registerChainInvariant (l : List MigrationStep) (reg : Registry)
    (h : registerAll [] l = .ok reg) :
    (reg.map (fun x => x.revision)).Nodup ∧ fwdClosed reg = true :=
  registerAll_inv l [] reg ⟨List.nodup_nil, rfl⟩ h

/-- Witness for the amended C5 theorem at a concrete register run. -/
theorem registerChainInvariant_w :
    (([⟨"b", some "a", [], []⟩, ⟨"a", none, [], []⟩] : Registry).map
        (fun x => x.revision)).Nodup
    ∧ fwdClosed [⟨"b", some "a", [], []⟩, ⟨"a", none, [], []⟩] = true :=
  registerChainInvariant [⟨"a", none, [], []⟩, ⟨"b", some "a", [], []⟩]
    [⟨"b", some "a", [], []⟩, ⟨"a", none, [], []⟩] rfl

/-- C6: when the steps before s complete, s's first edit succeeds and
s's second edit fails, migrate stops at that failure: it reports
ApplyFailed for s, leaves ChainState at the revision reached by the
last fully completed step, and keeps the effect of s's already-executed
first edit in the schema (no rollback). -/
theorem migrateStopsAtFailure (reg : Registry) (st : EngineState) (t : Option String)
    (done : List MigrationStep) (s : MigrationStep) (rest : List MigrationStep)
    (hpath : resolvePath reg st.current t = .ok (.upgradePath (done ++ s :: rest)))
    (st1 : EngineState) (hdone : runSteps true st done = (st1, none))
    (e1 e2 : SchemaEdit) (hup : s.upgrade = [e1, e2])
    (s1 : Schema) (h1 : applyEdit st1.schema e1 = .ok s1)
    (err : EditError) (h2 : applyEdit s1 e2 = .error err) :
    migrate reg st t
      = ({ schema := s1, current := st1.current }, some (.applyFailed s.revision err)) := by
  simp only [migrate, hpath]
  rw [runSteps_append true st st1 done (s :: rest) hdone]
  simp [runSteps, applyStep, hup, runEdits, h1, h2]

/-- Witness for the C6 theorem: migrating the users-less base schema up
to R3 applies R1 and R2, adds R3's owner_id column, then fails creating
the foreign key; ChainState ends at R2 and owner_id stays. -/
theorem migrateStopsAtFailure_w :
    migrate scenarioReg ⟨noUsersSchema, none⟩ (some "R3")
      = (⟨⟨[("posts", [colId, colTitle, colContent, colOwner])], []⟩, some "R2"⟩,
         some (.applyFailed "R3" (.missingColumn "users" "id"))) :=
  migrateStopsAtFailure scenarioReg ⟨noUsersSchema, none⟩ (some "R3")
    [stepR1, stepR2] stepR3 [] rfl
    ⟨⟨[("posts", [colId, colTitle, colContent])], []⟩, some "R2"⟩ rfl
    (.addColumn "posts" "owner_id" "Integer" false none)
    (.addForeignKey "post_user_fk" "posts" "owner_id" "users" "id" (some "CASCADE")) rfl
    ⟨[("posts", [colId, colTitle, colContent, colOwner])], []⟩ rfl
    (.missingColumn "users" "id") rfl

/-- C7: for two registered revisions neither of which is reachable from
the other along the predecessor relation, resolvePath fails with
NoPath. -/
theorem noPathWhenDisconnected (reg : Registry) (a b : String)
    (ha : (findStep reg a).isSome = true) (hb : (findStep reg b).isSome = true)
    (hab : reaches reg a b = false) (hba : reaches reg b a = false) :
    resolvePath reg (some a) (some b) = .error (.noPath (some a) (some b)) := by
  have h1 : belowOf (ancestry reg (some b)) (some a) = false := hba
  have h2 : belowOf (ancestry reg (some a)) (some b) = false := hab
  simp only [resolvePath, okEndpoint, ha, hb, Bool.and_self, if_true, h1, h2,
    Bool.false_eq_true, if_false]

/-- Witness for the C7 theorem: the two source steps whose predecessor
pointers name distinct unregistered revisions are not on the same
chain, so resolvePath between them reports NoPath. -/
theorem noPathWhenDisconnected_w :
    resolvePath sourceSteps (some "134d9a43f339") (some "2b864134392f")
      = .error (.noPath (some "134d9a43f339") (some "2b864134392f")) :=
  noPathWhenDisconnected sourceSteps "134d9a43f339" "2b864134392f" rfl rfl rfl rfl

/-- C8: for steps 134d9a43f339 and 5b5d2975fa05 the (table, column)
pairs dropped by the downgrade are exactly the pairs added by the
upgrade, and running the upgrade then the downgrade restores any
starting schema (in particular its column sets) exactly. -/
theorem applyRevertRestoresColumns :
    droppedColumns step134d.downgrade = addedColumns step134d.upgrade
    ∧ droppedColumns step5b5d.downgrade = addedColumns step5b5d.upgrade
    ∧ (∀ sc sc', runEdits sc step134d.upgrade = (sc', none) →
        runEdits sc' step134d.downgrade = (sc, none))
    ∧ (∀ sc sc', runEdits sc step5b5d.upgrade = (sc', none) →
        runEdits sc' step5b5d.downgrade = (sc, none)) := by
  refine ⟨rfl, rfl, ?_, ?_⟩
  · intro sc sc' h
    obtain ⟨tbls, fs⟩ := sc
    have h' : applyEdit ⟨tbls, fs⟩ (.addColumn "posts" "content" "String" false none)
        = .ok sc' := (runEdits_singleton ⟨tbls, fs⟩ sc' _).mp h
    exact (runEdits_singleton sc' ⟨tbls, fs⟩ _).mpr
      (add_then_drop tbls fs sc' "posts" "content" "String" false none h')
  · intro sc sc' h
    obtain ⟨tbls, fs⟩ := sc
    obtain ⟨s1, ha1, ha2⟩ := (runEdits_pair ⟨tbls, fs⟩ sc' _ _).mp h
    rw [applyEdit_add_ok] at ha1
    obtain ⟨cols, hc, hany1, rfl⟩ := ha1
    rw [applyEdit_add_ok] at ha2
    obtain ⟨cols1, hc1, hany2, rfl⟩ := ha2
    dsimp only at hc hc1 ⊢
    rw [show (⟨"published", "Boolean", false, some "TRUE"⟩ : Column) = colPub from rfl] at hc1 ⊢
    rw [show (⟨"created_at", "TIMESTAMP(timezone=True)", false, some "NOW()"⟩ : Column)
        = colCre from rfl]
    have hcols1 : cols1 = cols ++ [colPub] := by
      have hx := colsOf_setCols tbls "posts" (cols ++ [colPub]) cols hc
      rw [hc1] at hx
      exact Option.some_inj.mp hx
    subst hcols1
    have hcre : cols.any (fun col => col.name == "created_at") = false := by
      rw [List.any_append] at hany2
      exact (Bool.or_eq_false_iff.mp hany2).1
    have hdrop1 : applyEdit
        (⟨setCols tbls "posts" (cols ++ [colPub, colCre]), fs⟩ : Schema)
        (.dropColumn "posts" "published")
        = .ok (⟨setCols tbls "posts" (cols ++ [colCre]), fs⟩ : Schema) := by
      have hcx : colsOf (setCols tbls "posts" (cols ++ [colPub, colCre])) "posts"
          = some (cols ++ [colPub, colCre]) :=
        colsOf_setCols tbls "posts" _ cols hc
      have hinx : (cols ++ [colPub, colCre]).any (fun col => col.name == "published") = true := by
        rw [show cols ++ [colPub, colCre] = (cols ++ [colPub]) ++ [colCre] by simp]
        rw [List.any_append, match_append cols "published" colPub rfl]
        rfl
      have hd := applyEdit_drop_ok
        (⟨setCols tbls "posts" (cols ++ [colPub, colCre]), fs⟩ : Schema)
        "posts" "published" _ hcx hinx
      have hfl : (cols ++ [colPub, colCre]).filter (fun col => !(col.name == "published"))
          = cols ++ [colCre] := by
        rw [show cols ++ [colPub, colCre] = (cols ++ [colPub]) ++ [colCre] by simp]
        rw [List.filter_append, filter_fresh_append cols "published" colPub rfl hany1]
        rfl
      rw [hfl, setCols_setCols] at hd
      exact hd
    have hdrop2 : applyEdit (⟨setCols tbls "posts" (cols ++ [colCre]), fs⟩ : Schema)
        (.dropColumn "posts" "created_at") = .ok (⟨tbls, fs⟩ : Schema) := by
      refine add_then_drop tbls fs _ "posts" "created_at" "TIMESTAMP(timezone=True)" false
        (some "NOW()") ?_
      exact applyEdit_add_ok.mpr ⟨cols, hc, hcre, rfl⟩
    rw [show ((cols ++ [colPub]) ++ [colCre] : List Column)
        = cols ++ [colPub, colCre] by simp, setCols_setCols]
    exact (runEdits_pair _ ⟨tbls, fs⟩ _ _).mpr
      ⟨⟨setCols tbls "posts" (cols ++ [colCre]), fs⟩, hdrop1, hdrop2⟩

/-- Witness for the C8 theorem: applying step 134d9a43f339's upgrade to
the base schema and then its downgrade returns the base schema. -/
theorem applyRevertRestoresColumns_w :
    runEdits ⟨[("posts", [colId, colContent]), ("users", [colId])], []⟩
      step134d.downgrade = (baseSchema, none) :=
  applyRevertRestoresColumns.2.2.1 baseSchema
    ⟨[("posts", [colId, colContent]), ("users", [colId])], []⟩ rfl

/-- C9: every edit in every upgrade and downgrade sequence of the three
source steps targets the posts table, and running any of those
sequences (to completion or up to a failure) leaves the columns and
foreign keys of every other table, including users, unchanged. -/
theorem editsOnlyTouchPosts (st : MigrationStep) (hst : st ∈ sourceSteps)
    (es : List SchemaEdit) (hes : es = st.upgrade ∨ es = st.downgrade)
    (sc sc' : Schema) (r : Option EditError) (h : runEdits sc es = (sc', r))
    (t : String) (ht : t ≠ "posts") :
    (∀ e ∈ es, editTable e = "posts")
    ∧ sc'.columnsOf t = sc.columnsOf t ∧ sc'.fksOn t = sc.fksOn t := by
  have hall : ∀ e ∈ es, editTable e = "posts" := by
    fin_cases hst <;> rcases hes with rfl | rfl <;> decide
  exact ⟨hall, runEdits_frame "posts" es hall sc sc' r h t ht⟩

/-- Witness for the C9 theorem: running step 2b864134392f's upgrade on
the base schema leaves the users table's columns and foreign keys
untouched. -/
theorem editsOnlyTouchPosts_w :
    (∀ e ∈ step2b86.upgrade, editTable e = "posts")
    ∧ Schema.columnsOf ⟨[("posts", [colId, colOwner]), ("users", [colId])], [fkPostUser]⟩ "users"
        = baseSchema.columnsOf "users"
    ∧ Schema.fksOn ⟨[("posts", [colId, colOwner]), ("users", [colId])], [fkPostUser]⟩ "users"
        = baseSchema.fksOn "users" :=
  editsOnlyTouchPosts step2b86 (by decide) step2b86.upgrade (Or.inl rfl) baseSchema
    ⟨[("posts", [colId, colOwner]), ("users", [colId])], [fkPostUser]⟩ none rfl
    "users" (by decide)

/-- C10: in step 2b864134392f's upgrade the AddColumn edit for owner_id
precedes the AddForeignKey edit whose local column is owner_id, and
once the column add has succeeded the schema has owner_id on posts, so
the foreign-key edit cannot fail with the missing-local-column
error. -/
theorem ownerIdAddedBeforeFk :
    step2b86.upgrade = [.addColumn "posts" "owner_id" "Integer" false none,
        .addForeignKey "post_user_fk" "posts" "owner_id" "users" "id" (some "CASCADE")]
    ∧ ∀ sc sc', applyEdit sc (.addColumn "posts" "owner_id" "Integer" false none) = .ok sc' →
        sc'.hasColumn "posts" "owner_id" = true
        ∧ applyEdit sc' (.addForeignKey "post_user_fk" "posts" "owner_id" "users" "id" (some "CASCADE"))
            ≠ .error (.missingColumn "posts" "owner_id") := by
  refine ⟨rfl, ?_⟩
  intro sc sc' h
  obtain ⟨tbls, fs⟩ := sc
  rw [applyEdit_add_ok] at h
  obtain ⟨cols, hc, hany, rfl⟩ := h
  dsimp only at hc ⊢
  have hcol : Schema.hasColumn
      (⟨setCols tbls "posts" (cols ++ [(⟨"owner_id", "Integer", false, none⟩ : Column)]), fs⟩ : Schema)
      "posts" "owner_id" = true := by
    simp only [Schema.hasColumn, Schema.columnsOf,
      colsOf_setCols tbls "posts" (cols ++ [(⟨"owner_id", "Integer", false, none⟩ : Column)]) cols hc]
    exact match_append cols "owner_id" _ rfl
  refine ⟨hcol, ?_⟩
  intro hcontra
  simp only [applyEdit, hcol] at hcontra
  split at hcontra
  · rename_i hx
    simp at hx
  · split at hcontra
    · simp at hcontra
    · split at hcontra
      · simp at hcontra
      · simp at hcontra

/-- Witness for the C10 theorem at the base schema. -/
theorem ownerIdAddedBeforeFk_w :
    Schema.hasColumn ⟨[("posts", [colId, colOwner]), ("users", [colId])], []⟩
        "posts" "owner_id" = true
    ∧ applyEdit ⟨[("posts", [colId, colOwner]), ("users", [colId])], []⟩
        (.addForeignKey "post_user_fk" "posts" "owner_id" "users" "id" (some "CASCADE"))
        ≠ .error (.missingColumn "posts" "owner_id") :=
  ownerIdAddedBeforeFk.2 baseSchema
    ⟨[("posts", [colId, colOwner]), ("users", [colId])], []⟩ rfl

end MigChain

